import Mathlib

/-!
Verification development for the Taichi cloth simulation (src/main.py).

The program is a mass-spring cloth on an n×n grid with a static sphere
collider.  We give a shallow embedding of its state and operations over
exact rationals.  The two floating-point primitives that have no exact
rational counterpart, `ti.sqrt`-style norms (inside `normalized()` /
`norm()`) and `ti.exp`, are passed to the embedded operations as explicit
function parameters `sqrt exp : ℚ → ℚ`; theorems quantify over them, so
they hold for every interpretation of those primitives (in particular the
f32 one).  A separate Option-valued model at the end tracks IEEE NaN
production for the degenerate-spring analysis.
-/

/-- Three-component vector of rationals, embedding `ti.Vector` of length 3. -/
structure Vec3 where
  vx : ℚ
  vy : ℚ
  vz : ℚ
deriving DecidableEq

attribute [ext] Vec3

instance : Add Vec3 := ⟨fun a b => ⟨a.vx + b.vx, a.vy + b.vy, a.vz + b.vz⟩⟩

instance : Sub Vec3 := ⟨fun a b => ⟨a.vx - b.vx, a.vy - b.vy, a.vz - b.vz⟩⟩

instance : Neg Vec3 := ⟨fun a => ⟨-a.vx, -a.vy, -a.vz⟩⟩

instance : SMul ℚ Vec3 := ⟨fun c a => ⟨c * a.vx, c * a.vy, c * a.vz⟩⟩

instance : Zero Vec3 := ⟨⟨0, 0, 0⟩⟩


/-- Dot product, embedding `a.dot(b)`. -/
def dot (a b : Vec3) : ℚ := a.vx * b.vx + a.vy * b.vy + a.vz * b.vz

/-- Squared Euclidean norm; `a.norm()` in the source is `sqrt (normSq a)`. -/
def normSq (a : Vec3) : ℚ := dot a a


/-- Embedding of the module-level `spring_offsets` construction of
src/main.py (lines 72-83): the nested Python loops `for i in range(a, b)`
are `rangeZ a b` below, the conditional `append` is the `if ... then [p]
else []` inside `bind`. -/
def rangeZ (a b : ℤ) : List ℤ := (List.range (b - a).toNat).map (fun k => a + k)

/-- The spring topology: for `bending_springs = true` the 3×3 neighborhood
minus the center, otherwise all offsets with Manhattan norm at most 2,
minus the center (src/main.py lines 72-83). -/
def spring_offsets (bending_springs : Bool) : List (ℤ × ℤ) :=
  if bending_springs then
    (rangeZ (-1) 2).flatMap (fun i =>
      (rangeZ (-1) 2).flatMap (fun j =>
        if (i, j) ≠ ((0 : ℤ), (0 : ℤ)) then [(i, j)] else []))
  else
    (rangeZ (-2) 3).flatMap (fun i =>
      (rangeZ (-2) 3).flatMap (fun j =>
        if (i, j) ≠ ((0 : ℤ), (0 : ℤ)) ∧ i.natAbs + j.natAbs ≤ 2 then [(i, j)] else []))

/-- A grid cell (i, j) lies inside the n×n grid, embedding the bound check
`0 <= j[0] < n and 0 <= j[1] < n` of src/main.py line 94 (and the implicit
iteration domain of `for i in ti.grouped(x)`). -/
def inGrid (n : ℕ) (i j : ℤ) : Prop := 0 ≤ i ∧ i < (n : ℤ) ∧ 0 ≤ j ∧ j < (n : ℤ)

instance (n : ℕ) (i j : ℤ) : Decidable (inGrid n i j) :=
  inferInstanceAs (Decidable (_ ∧ _ ∧ _ ∧ _))

/-- The whole mutable module-level state of src/main.py: the taichi fields
`x`, `v`, `vertices`, `indices`, `colors`, the scalar fields `spring_Y`,
`ball_radius`, the vector field `ball_center`, and the plain globals
`gravity`, `dashpot_damping`, `drag_damping`, `n`, `quad_size`, `dt`,
`substeps` together with the precomputed `spring_offsets` list.  The grid
fields are total functions on ℤ×ℤ; only indices in `[0, n)×[0, n)` form the
grid, and the kernels below touch only those. -/
structure Sim where
  n : ℕ
  quad_size : ℚ
  dt : ℚ
  substeps : ℤ
  gravity : Vec3
  spring_Y : ℚ
  dashpot_damping : ℚ
  drag_damping : ℚ
  ball_radius : ℚ
  ball_center : Vec3
  x : ℤ → ℤ → Vec3
  v : ℤ → ℤ → Vec3
  indices : ℕ → ℕ
  vertices : ℕ → Vec3
  colors : ℕ → Vec3
  offsets : List (ℤ × ℤ)

/-- One spring's force contribution (src/main.py lines 95-103) for the pair
of cells at positions `xi`, `xj` with velocities `vi`, `vj`, connected by
the grid offset `off`.  The source computes
`d = x_ij.normalized()`, i.e. `(1 / x_ij.norm()) * x_ij`, and
`original_dist = quad_size * float(i - j).norm()` where `i - j = -off`,
whose squared norm equals that of `off`.  `sqrt` is the square-root
primitive passed in as a parameter. -/
def spring_contrib (sqrt : ℚ → ℚ) (Y dp qs : ℚ) (xi xj vi vj : Vec3)
    (off : ℤ × ℤ) : Vec3 :=
  let x_ij := xi - xj
  let v_ij := vi - vj
  let current_dist := sqrt (normSq x_ij)
  let d := (1 / current_dist) • x_ij
  let original_dist := qs * sqrt ((off.1 * off.1 + off.2 * off.2 : ℤ) : ℚ)
  ((-Y) * (current_dist / original_dist - 1)) • d
    + ((-(dot v_ij d)) * dp * qs) • d

/-- Python's built-in two-argument `min` on scalars. -/
def qmin (a b : ℚ) : ℚ := if a ≤ b then a else b


/-- The collision-response update of src/main.py lines 110-113: if the point
is inside the ball, subtract the inward normal component of the velocity,
`v -= min(v.dot(normal), 0) * normal` with `normal = offset.normalized()`.
Over the reals with `o = pos - c ≠ 0` and `s = sqrt (normSq o)` we have
`s ≤ r ↔ (0 ≤ r ∧ normSq o ≤ r * r)` and
`min (dot v (s⁻¹ • o)) 0 • (s⁻¹ • o) = (min (dot v o) 0 / normSq o) • o`,
since `s * s = normSq o` and `s > 0`; the definition uses those square-free
forms, which are exact.  The case `o = 0` is a degenerate normalization in
the source (0/0 in f32); the NaN model at the end of this file covers the
degenerate-normalization behavior. -/
def collision_project (r : ℚ) (c pos v : Vec3) : Vec3 :=
  let o := pos - c
  if 0 ≤ r ∧ normSq o ≤ r * r then
    v - (qmin (dot v o) 0 / normSq o) • o
  else
    v

/-- One physics sub-step (src/main.py lines 85-114), as a pure state
transformer.  The kernel's three serialized parallel loops become three
staged fields: gravity (line 87-88), spring forces (lines 90-105, reading
the post-gravity velocities and the pre-step positions), then drag,
collision response and position integration fused in one loop (lines
107-114).  `sqrt` and `exp` are the f32 primitives, passed as parameters. -/
def substep (sqrt exp : ℚ → ℚ) (s : Sim) : Sim :=
  let v1 : ℤ → ℤ → Vec3 := fun i j =>
    if inGrid s.n i j then s.v i j + s.dt • s.gravity else s.v i j
  let v2 : ℤ → ℤ → Vec3 := fun i j =>
    if inGrid s.n i j then
      v1 i j + s.dt • (s.offsets.foldl (fun force off =>
        force +
          (if inGrid s.n (i + off.1) (j + off.2) then
            spring_contrib sqrt s.spring_Y s.dashpot_damping s.quad_size
              (s.x i j) (s.x (i + off.1) (j + off.2))
              (v1 i j) (v1 (i + off.1) (j + off.2)) off
          else 0)) 0)
    else v1 i j
  let v3 : ℤ → ℤ → Vec3 := fun i j =>
    if inGrid s.n i j then
      collision_project s.ball_radius s.ball_center (s.x i j)
        (exp (-(s.drag_damping * s.dt)) • v2 i j)
    else v2 i j
  let x1 : ℤ → ℤ → Vec3 := fun i j =>
    if inGrid s.n i j then s.x i j + s.dt • v3 i j else s.x i j
  { s with x := x1, v := v3 }

/-- The default substep count of src/main.py line 11,
`substeps = int(1 / 60 // dt)`: Python floor division of `1/60` by `dt`,
truncated to an integer. -/
def default_substeps (dt : ℚ) : ℤ := Int.floor ((1 / 60 : ℚ) / dt)

/-- The `reset()` function of src/main.py lines 34-37.  Its first line,
`substeps = int(1 / 60 // dt)`, binds a fresh local variable named
`substeps` (the function has no `global substeps` declaration), so the
module-level `substeps` is not modified; only the taichi scalar fields
`spring_Y` and `ball_radius` are written. -/
def reset (s : Sim) : Sim :=
  { s with spring_Y := 1000, ball_radius := 3 / 10 }

/-- The `initialize_mass_points()` kernel of src/main.py lines 39-48.
`u0`, `u1` are the two `ti.random()` samples; the shared jitter is
`random_offset = (u0 - 0.5, u1 - 0.5) * 0.1`.  Every grid cell's position
and velocity is overwritten; nothing else changes. -/
def initialize_mass_points (u0 u1 : ℚ) (s : Sim) : Sim :=
  let off0 := (u0 - 1 / 2) * (1 / 10)
  let off1 := (u1 - 1 / 2) * (1 / 10)
  { s with
    x := fun i j =>
      if inGrid s.n i j then
        ⟨(i : ℚ) * s.quad_size - 1 / 2 + off0, 3 / 5, (j : ℚ) * s.quad_size - 1 / 2 + off1⟩
      else s.x i j,
    v := fun i j => if inGrid s.n i j then 0 else s.v i j }

/-- The value the `initialize_mesh_indices()` kernel of src/main.py lines
51-62 stores at flat position `p` of the `indices` field: the kernel writes
position `quad_id * 6 + t` for `quad_id = i * (n-1) + j` with
`0 ≤ i, j < n-1` and `0 ≤ t < 6`, so `quad_id = p / 6`, `t = p % 6`,
`i = quad_id / (n-1)`, `j = quad_id % (n-1)`. -/
def indices_val (n p : ℕ) : ℕ :=
  let quad_id := p / 6
  let t := p % 6
  let i := quad_id / (n - 1)
  let j := quad_id % (n - 1)
  if t = 0 then i * n + j
  else if t = 1 then (i + 1) * n + j
  else if t = 2 then i * n + (j + 1)
  else if t = 3 then (i + 1) * n + j + 1
  else if t = 4 then i * n + (j + 1)
  else (i + 1) * n + j

/-- The full contents of the `indices` field after
`initialize_mesh_indices()`: the field has shape `num_triangles * 3 =
(n-1) * (n-1) * 6` (src/main.py lines 27-28). -/
def initialize_mesh_indices (n : ℕ) : List ℕ :=
  (List.range ((n - 1) * (n - 1) * 6)).map (indices_val n)

/-! ## IEEE non-finite tracking model

The exact-rational embedding above idealizes f32 arithmetic; in particular
Lean's division-by-zero convention silently returns 0 where f32 returns an
infinity or NaN.  For the degenerate-spring analysis the propagation of
non-finite values matters, so the spring-force body is re-embedded below
over `Option ℚ`, where `none` stands for a non-finite f32 value (NaN or
±inf).  Addition, multiplication and negation of f32 values are total on
finite operands (modulo overflow, irrelevant here) and propagate NaN;
division by zero is the one operation that creates a non-finite value
(`0/0 = NaN`, `a/0 = ±inf`), and any arithmetic on a NaN stays NaN. -/

/-- A possibly-non-finite scalar: `some q` is the finite value `q`,
`none` is NaN/±inf. -/
def FQ : Type := Option ℚ

instance : DecidableEq FQ := inferInstanceAs (DecidableEq (Option ℚ))

def fadd : FQ → FQ → FQ
  | some a, some b => some (a + b)
  | _, _ => none

def fsub : FQ → FQ → FQ
  | some a, some b => some (a - b)
  | _, _ => none

def fmul : FQ → FQ → FQ
  | some a, some b => some (a * b)
  | _, _ => none

def fneg : FQ → FQ
  | some a => some (-a)
  | none => none

/-- f32 division: division by zero produces a non-finite value. -/
def fdiv : FQ → FQ → FQ
  | some a, some b => if b = 0 then none else some (a / b)
  | _, _ => none

/-- A 3-vector of possibly-non-finite scalars. -/
structure FVec3 where
  fx : FQ
  fy : FQ
  fz : FQ
deriving DecidableEq

def fvadd (a b : FVec3) : FVec3 := ⟨fadd a.fx b.fx, fadd a.fy b.fy, fadd a.fz b.fz⟩

def fvsmul (c : FQ) (a : FVec3) : FVec3 := ⟨fmul c a.fx, fmul c a.fy, fmul c a.fz⟩

def fdot (a b : FVec3) : FQ :=
  fadd (fadd (fmul a.fx b.fx) (fmul a.fy b.fy)) (fmul a.fz b.fz)

/-- Lift an exact vector to the tracking model. -/
def fvec (a : Vec3) : FVec3 := ⟨some a.vx, some a.vy, some a.vz⟩

/-- The spring-force body of src/main.py lines 95-103 in the non-finite
tracking model, for one offset pair: the pre-state positions and
velocities `xi, xj, vi, vj` are finite; `d = x_ij / x_ij.norm()` is taken
componentwise with f32 division, so a zero `x_ij` (whose norm is
`sqrt 0 = 0`) makes every component of `d` the non-finite `0/0`.  The
returned value is the contribution added into `force`. -/
def spring_contrib_f (sqrt : ℚ → ℚ) (Y dp qs : ℚ) (xi xj vi vj : Vec3)
    (off : ℤ × ℤ) : FVec3 :=
  let x_ij := xi - xj
  let v_ij := vi - vj
  let current_dist : FQ := some (sqrt (normSq x_ij))
  let d : FVec3 := ⟨fdiv (some x_ij.vx) current_dist,
                    fdiv (some x_ij.vy) current_dist,
                    fdiv (some x_ij.vz) current_dist⟩
  let original_dist : FQ := some (qs * sqrt ((off.1 * off.1 + off.2 * off.2 : ℤ) : ℚ))
  fvadd
    (fvsmul (fmul (fneg (some Y)) (fsub (fdiv current_dist original_dist) (some 1))) d)
    (fvsmul (fmul (fmul (fneg (fdot (fvec v_ij) d)) (some dp)) (some qs)) d)

/-- The velocity update `v[i] += force * dt` (src/main.py line 105) in the
non-finite tracking model. -/
def velocity_after_springs_f (dt : ℚ) (v force : FVec3) : FVec3 :=
  fvadd v (fvsmul (some dt) force)

/-! ## Concrete states used as test inputs -/

/-- A generic small concrete state on a 2×2 grid. -/
def sample_sim : Sim :=
  { n := 2
    quad_size := 1 / 2
    dt := 1 / 50
    substeps := 53
    gravity := ⟨0, -(49 / 5), 0⟩
    spring_Y := 1000
    dashpot_damping := 10000
    drag_damping := 1
    ball_radius := 3 / 10
    ball_center := 0
    x := fun _ _ => ⟨5, 5, 5⟩
    v := fun _ _ => 0
    indices := fun _ => 0
    vertices := fun _ => 0
    colors := fun _ => 0
    offsets := spring_offsets false }

/-- A 2×2 state with zero stiffness, zero gravity and all points far
outside the ball, but one point moving relative to its neighbors: cell
(0,0) sits at the origin with velocity (1,0,0); cells (0,1), (1,0), (1,1)
sit at (4,0,0), (0,3,0), (4,3,0) at rest, so all six pairwise distances
are the rational numbers 3, 4 and 5. -/
def cex_sim : Sim :=
  { sample_sim with
    gravity := 0
    spring_Y := 0
    ball_center := ⟨100, 100, 100⟩
    x := fun i j =>
      if i = 0 ∧ j = 0 then ⟨0, 0, 0⟩
      else if i = 0 ∧ j = 1 then ⟨4, 0, 0⟩
      else if i = 1 ∧ j = 0 then ⟨0, 3, 0⟩
      else ⟨4, 3, 0⟩
    v := fun i j => if i = 0 ∧ j = 0 then ⟨1, 0, 0⟩ else 0 }

/-- A 2×2 state with zero stiffness, zero gravity, all points far outside
the ball at the pairwise-distinct positions of `cex_sim` (no coincident
pair, so no degenerate normalization), and one uniform velocity
everywhere. -/
def drag_only_sim : Sim :=
  { cex_sim with v := fun _ _ => ⟨1, 2, 3⟩ }

/-- A square-root function that is exact on the squared distances occurring
in `cex_sim` (and sends everything else to 0, like any other total stand-in
for the f32 primitive). -/
def cex_sqrt : ℚ → ℚ := fun q =>
  if q = 1 then 1
  else if q = 2 then 3 / 2
  else if q = 9 then 3
  else if q = 16 then 4
  else if q = 25 then 5
  else 0

/-- A state whose tunables have been moved away from their defaults:
`substeps` is 50 instead of the default 53 that `int(1/60 // dt)` gives for
`dt = 0.04/128 = 1/3200`. -/
def reset_sim : Sim :=
  { sample_sim with
    n := 128
    quad_size := 1 / 128
    dt := 1 / 3200
    substeps := 50
    spring_Y := 29999
    ball_radius := 1 / 2 }

/-! ## Helper lemmas -/

@[simp] theorem Vec3.add_vx (a b : Vec3) : (a + b).vx = a.vx + b.vx := rfl

@[simp] theorem Vec3.add_vy (a b : Vec3) : (a + b).vy = a.vy + b.vy := rfl

@[simp] theorem Vec3.add_vz (a b : Vec3) : (a + b).vz = a.vz + b.vz := rfl

@[simp] theorem Vec3.sub_vx (a b : Vec3) : (a - b).vx = a.vx - b.vx := rfl

@[simp] theorem Vec3.sub_vy (a b : Vec3) : (a - b).vy = a.vy - b.vy := rfl

@[simp] theorem Vec3.sub_vz (a b : Vec3) : (a - b).vz = a.vz - b.vz := rfl

@[simp] theorem Vec3.neg_vx (a : Vec3) : (-a).vx = -a.vx := rfl

@[simp] theorem Vec3.neg_vy (a : Vec3) : (-a).vy = -a.vy := rfl

@[simp] theorem Vec3.neg_vz (a : Vec3) : (-a).vz = -a.vz := rfl

@[simp] theorem Vec3.smul_vx (c : ℚ) (a : Vec3) : (c • a).vx = c * a.vx := rfl

@[simp] theorem Vec3.smul_vy (c : ℚ) (a : Vec3) : (c • a).vy = c * a.vy := rfl

@[simp] theorem Vec3.smul_vz (c : ℚ) (a : Vec3) : (c • a).vz = c * a.vz := rfl

@[simp] theorem Vec3.zero_vx : (0 : Vec3).vx = 0 := rfl

@[simp] theorem Vec3.zero_vy : (0 : Vec3).vy = 0 := rfl

@[simp] theorem Vec3.zero_vz : (0 : Vec3).vz = 0 := rfl

theorem Vec3.add_zero (a : Vec3) : a + 0 = a := by ext <;> simp

theorem Vec3.smul_zero (c : ℚ) : c • (0 : Vec3) = 0 := by ext <;> simp

theorem Vec3.zero_smul (a : Vec3) : (0 : ℚ) • a = 0 := by ext <;> simp

theorem Vec3.sub_zero (a : Vec3) : a - 0 = a := by ext <;> simp

theorem Vec3.sub_self (a : Vec3) : a - a = 0 := by ext <;> simp

theorem dot_zero_left (a : Vec3) : dot 0 a = 0 := by simp [dot]

theorem normSq_nonneg (a : Vec3) : 0 ≤ normSq a := by
  have hx := mul_self_nonneg a.vx
  have hy := mul_self_nonneg a.vy
  have hz := mul_self_nonneg a.vz
  simp only [normSq, dot]
  linarith

theorem normSq_pos_of_ne_zero (a : Vec3) (h : a ≠ 0) : 0 < normSq a := by
  rcases lt_or_eq_of_le (normSq_nonneg a) with hlt | heq
  · exact hlt
  · exfalso
    apply h
    have hx := mul_self_nonneg a.vx
    have hy := mul_self_nonneg a.vy
    have hz := mul_self_nonneg a.vz
    have h0 : a.vx * a.vx + a.vy * a.vy + a.vz * a.vz = 0 := by
      simpa [normSq, dot] using heq.symm
    have hx0 : a.vx = 0 := by nlinarith
    have hy0 : a.vy = 0 := by nlinarith
    have hz0 : a.vz = 0 := by nlinarith
    ext <;> simp [hx0, hy0, hz0]

theorem qmin_eq_min (a b : ℚ) : qmin a b = min a b := by
  simp [qmin, min_def]

theorem Vec3.dt_smul_zero (c : ℚ) : c • (0 : Vec3) = 0 := by ext <;> simp

theorem foldl_add_eq_init {α : Type} (l : List α) (g : α → Vec3) (z : Vec3)
    (h : ∀ a ∈ l, g a = 0) : l.foldl (fun acc a => acc + g a) z = z := by
  induction l generalizing z with
  | nil => rfl
  | cons b t ih =>
    have hb : g b = 0 := h b (List.mem_cons_self b t)
    have ht : ∀ a ∈ t, g a = 0 := fun a ha => h a (List.mem_cons_of_mem b ha)
    simp only [List.foldl_cons, hb, Vec3.add_zero]
    exact ih z ht

theorem normSq_zero : normSq 0 = 0 := by simp [normSq, dot]

theorem normSq_sub_comm (a b : Vec3) : normSq (b - a) = normSq (a - b) := by
  simp only [normSq, dot, Vec3.sub_vx, Vec3.sub_vy, Vec3.sub_vz]
  ring

theorem dot_sub_left (a b w : Vec3) : dot (a - b) w = dot a w - dot b w := by
  simp only [dot, Vec3.sub_vx, Vec3.sub_vy, Vec3.sub_vz]
  ring

theorem dot_smul_left (c : ℚ) (a w : Vec3) : dot (c • a) w = c * dot a w := by
  simp only [dot, Vec3.smul_vx, Vec3.smul_vy, Vec3.smul_vz]
  ring

theorem dot_neg_left (a w : Vec3) : dot (-a) w = -dot a w := by
  simp only [dot, Vec3.neg_vx, Vec3.neg_vy, Vec3.neg_vz]
  ring

theorem qmin_eq_left {a : ℚ} (h : a ≤ 0) : qmin a 0 = a := by simp [qmin, h]

theorem qmin_eq_zero {a : ℚ} (h : 0 ≤ a) : qmin a 0 = 0 := by
  unfold qmin
  split
  · linarith
  · rfl

/-- A spring between two points with equal velocities exerts no force when
the stiffness is zero: the elastic factor is `-0 * _` and the dashpot factor
contains `dot (w - w) d = 0`. -/
theorem spring_contrib_eq_zero (sqrt : ℚ → ℚ) (dp qs : ℚ) (xi xj w : Vec3)
    (off : ℤ × ℤ) : spring_contrib sqrt 0 dp qs xi xj w w off = 0 := by
  simp only [spring_contrib, Vec3.sub_self]
  ext <;> simp [dot]

/-- Outside the ball the collision response is the identity. -/
theorem collision_project_of_outside (r : ℚ) (c pos v : Vec3)
    (h : r * r < normSq (pos - c)) : collision_project r c pos v = v := by
  unfold collision_project
  rw [if_neg]
  rintro ⟨-, h1⟩
  exact absurd h1 (not_le.mpr h)

/-! ## Claims -/

/-- C6: the spring-offset construction with `bending_springs = false` yields
exactly 12 distinct integer 2-vector offsets, none equal to (0,0), all with
Manhattan norm at most 2; with `bending_springs = true` it yields exactly
the 8 offsets of the 3×3 neighborhood minus the center. -/
theorem spring_offsets_topology :
    (spring_offsets false).length = 12 ∧
    (spring_offsets false).Nodup ∧
    (∀ o ∈ spring_offsets false,
      o ≠ ((0 : ℤ), (0 : ℤ)) ∧ o.1.natAbs + o.2.natAbs ≤ 2) ∧
    (spring_offsets true).length = 8 ∧
    (spring_offsets true).Nodup ∧
    spring_offsets true =
      [(-1, -1), (-1, 0), (-1, 1), (0, -1), (0, 1), (1, -1), (1, 0), (1, 1)] := by
  refine ⟨by decide, by decide, by decide, by decide, by decide, by decide⟩

/-- C10: in both topology modes the spring-offset set is closed under
negation, and the per-pair spring force contribution is antisymmetric
under swapping the two endpoints (with the offset negated accordingly),
so the elastic and dashpot contributions of any connected pair are
computed as equal-and-opposite pairs. -/
theorem spring_offsets_symmetric :
    (∀ b : Bool, ∀ o ∈ spring_offsets b,
      ((-o.1, -o.2) : ℤ × ℤ) ∈ spring_offsets b) ∧
    (∀ (sqrt : ℚ → ℚ) (Y dp qs : ℚ) (xi xj vi vj : Vec3) (off : ℤ × ℤ),
      spring_contrib sqrt Y dp qs xj xi vj vi (-off.1, -off.2) =
        - spring_contrib sqrt Y dp qs xi xj vi vj off) := by
  constructor
  · decide
  · intro sqrt Y dp qs xi xj vi vj off
    have h1 : normSq (xj - xi) = normSq (xi - xj) := normSq_sub_comm xi xj
    have h2 : (-off.1 * -off.1 + -off.2 * -off.2 : ℤ) = off.1 * off.1 + off.2 * off.2 := by
      ring
    simp only [spring_contrib, h1, h2]
    ext <;> simp [dot] <;> ring

/-- C9: `substep()` mutates only the position field `x` and the velocity
field `v`; the triangle index buffer, the vertex color buffer, the flat
vertex buffer, the sphere center, `ball_radius`, `spring_Y` and the
spring-offset set are all unchanged. -/
theorem substep_frame (sqrt exp : ℚ → ℚ) (s : Sim) :
    (substep sqrt exp s).indices = s.indices ∧
    (substep sqrt exp s).colors = s.colors ∧
    (substep sqrt exp s).vertices = s.vertices ∧
    (substep sqrt exp s).ball_center = s.ball_center ∧
    (substep sqrt exp s).ball_radius = s.ball_radius ∧
    (substep sqrt exp s).spring_Y = s.spring_Y ∧
    (substep sqrt exp s).offsets = s.offsets :=
  ⟨rfl, rfl, rfl, rfl, rfl, rfl, rfl⟩

/-- C8: `substep()` is deterministic: two states that agree on positions,
velocities and every tunable the step reads produce identical positions
and velocities after one `substep()` with the same arithmetic primitives;
no randomness is consumed (the random generator appears nowhere in the
step's inputs). -/
theorem substep_deterministic (sqrt exp : ℚ → ℚ) (s t : Sim)
    (hx : s.x = t.x) (hv : s.v = t.v) (hn : s.n = t.n)
    (hquad : s.quad_size = t.quad_size) (hdt : s.dt = t.dt)
    (hg : s.gravity = t.gravity) (hY : s.spring_Y = t.spring_Y)
    (hdp : s.dashpot_damping = t.dashpot_damping)
    (hdr : s.drag_damping = t.drag_damping)
    (hr : s.ball_radius = t.ball_radius) (hc : s.ball_center = t.ball_center)
    (hoff : s.offsets = t.offsets) :
    (substep sqrt exp s).x = (substep sqrt exp t).x ∧
    (substep sqrt exp s).v = (substep sqrt exp t).v := by
  unfold substep
  simp only [hx, hv, hn, hquad, hdt, hg, hY, hdp, hdr, hr, hc, hoff, and_self]

/-- Witness for C10 at a concrete offset and concrete vectors. -/
theorem spring_offsets_symmetric_witness :
    (((-1 : ℤ), (-1 : ℤ)) ∈ spring_offsets false) ∧
    spring_contrib (fun q => q) 1000 10000 (1 / 2) ⟨4, 0, 0⟩ ⟨0, 0, 0⟩ 0 ⟨1, 0, 0⟩
        (-(1 : ℤ), -(1 : ℤ)) =
      - spring_contrib (fun q => q) 1000 10000 (1 / 2) ⟨0, 0, 0⟩ ⟨4, 0, 0⟩ ⟨1, 0, 0⟩ 0
        ((1 : ℤ), (1 : ℤ)) :=
  ⟨spring_offsets_symmetric.1 false ((1 : ℤ), (1 : ℤ)) (by decide),
   spring_offsets_symmetric.2 (fun q => q) 1000 10000 (1 / 2)
     ⟨0, 0, 0⟩ ⟨4, 0, 0⟩ ⟨1, 0, 0⟩ 0 ((1 : ℤ), (1 : ℤ))⟩

/-- Witness for C8 at a concrete state. -/
theorem substep_deterministic_witness :
    (substep (fun q => q) (fun q => q) sample_sim).x =
      (substep (fun q => q) (fun q => q) sample_sim).x ∧
    (substep (fun q => q) (fun q => q) sample_sim).v =
      (substep (fun q => q) (fun q => q) sample_sim).v :=
  substep_deterministic (fun q => q) (fun q => q) sample_sim sample_sim
    rfl rfl rfl rfl rfl rfl rfl rfl rfl rfl rfl rfl

/-- C5: after any call to `initialize_mass_points()`, regardless of the
prior state, every grid cell has velocity (0,0,0), position y-coordinate
0.6, and x/z-coordinates `i*quad_size - 0.5` and `j*quad_size - 0.5`, each
shifted by the same constant jitter `(u0 - 0.5)*0.1`, `(u1 - 0.5)*0.1`
shared across all points. -/
theorem initialize_mass_points_spec (u0 u1 : ℚ) (s : Sim) (i j : ℤ)
    (hij : inGrid s.n i j) :
    (initialize_mass_points u0 u1 s).v i j = 0 ∧
    (initialize_mass_points u0 u1 s).x i j =
      ⟨(i : ℚ) * s.quad_size - 1 / 2 + (u0 - 1 / 2) * (1 / 10), 3 / 5,
       (j : ℚ) * s.quad_size - 1 / 2 + (u1 - 1 / 2) * (1 / 10)⟩ := by
  constructor <;> simp [initialize_mass_points, hij]

/-- Witness for C5 at a concrete state and cell. -/
theorem initialize_mass_points_spec_witness :
    (initialize_mass_points (1 / 4) (3 / 4) sample_sim).v 0 1 = 0 ∧
    (initialize_mass_points (1 / 4) (3 / 4) sample_sim).x 0 1 =
      ⟨(0 : ℚ) * sample_sim.quad_size - 1 / 2 + (1 / 4 - 1 / 2) * (1 / 10), 3 / 5,
       (1 : ℚ) * sample_sim.quad_size - 1 / 2 + (3 / 4 - 1 / 2) * (1 / 10)⟩ :=
  initialize_mass_points_spec (1 / 4) (3 / 4) sample_sim 0 1 (by decide)

/-- C2: in the collision stage of `substep()`, a point strictly inside the
sphere whose velocity points directly at the sphere center has exactly zero
normal velocity component immediately after the collision-response update;
and a point inside the sphere whose velocity has non-negative dot product
with the outward normal is left with its velocity unchanged. -/
theorem collision_projection_spec :
    (∀ (r : ℚ) (c pos v : Vec3) (lam : ℚ),
      0 < r → pos - c ≠ 0 → normSq (pos - c) < r * r →
      v = lam • (c - pos) → 0 < lam →
      dot (collision_project r c pos v) (pos - c) = 0) ∧
    (∀ (r : ℚ) (c pos v : Vec3),
      normSq (pos - c) ≤ r * r → 0 ≤ dot v (pos - c) →
      collision_project r c pos v = v) := by
  constructor
  · intro r c pos v lam hr ho hin hv hlam
    have hnsq : 0 < normSq (pos - c) := normSq_pos_of_ne_zero _ ho
    have hdv : dot v (pos - c) = -(lam * normSq (pos - c)) := by
      have hneg : c - pos = -(pos - c) := by ext <;> simp
      rw [hv, hneg, dot_smul_left, dot_neg_left, normSq]
      ring
    have hdvneg : dot v (pos - c) ≤ 0 := by
      rw [hdv]
      have : 0 < lam * normSq (pos - c) := mul_pos hlam hnsq
      linarith
    unfold collision_project
    rw [if_pos ⟨le_of_lt hr, le_of_lt hin⟩, qmin_eq_left hdvneg,
      dot_sub_left, dot_smul_left]
    rw [normSq] at hnsq ⊢
    field_simp
  · intro r c pos v hin hdv
    by_cases hcond : 0 ≤ r ∧ normSq (pos - c) ≤ r * r
    · simp only [collision_project, if_pos hcond]
      rw [qmin_eq_zero hdv, zero_div, Vec3.zero_smul, Vec3.sub_zero]
    · simp only [collision_project, if_neg hcond]

/-- Witness for C2: a point at (1/2, 0, 0) strictly inside the unit sphere
at the origin, once moving straight at the center and once moving straight
away from it. -/
theorem collision_projection_spec_witness :
    dot (collision_project 1 0 ⟨1 / 2, 0, 0⟩ ⟨-1, 0, 0⟩) (⟨1 / 2, 0, 0⟩ - 0) = 0 ∧
    collision_project 1 0 ⟨1 / 2, 0, 0⟩ ⟨1, 0, 0⟩ = ⟨1, 0, 0⟩ :=
  ⟨collision_projection_spec.1 1 0 ⟨1 / 2, 0, 0⟩ ⟨-1, 0, 0⟩ 2
      (by norm_num)
      (by intro h; have := congrArg Vec3.vx h; simp at this)
      (by norm_num [normSq, dot])
      (by ext <;> norm_num)
      (by norm_num),
   collision_projection_spec.2 1 0 ⟨1 / 2, 0, 0⟩ ⟨1, 0, 0⟩
      (by norm_num [normSq, dot])
      (by norm_num [dot])⟩

/-- C4 (code-bug evidence): `reset()` restores `spring_Y` to 1e3 and
`ball_radius` to 0.3 and leaves positions and velocities untouched, but it
does NOT restore the global substep count: for `dt = 1/3200` the default
`int(1/60 // dt)` is 53, yet after `reset()` on a state with
`substeps = 50` the count is still 50, because the assignment on
src/main.py line 35 creates a function-local variable. -/
theorem reset_leaves_substeps_unchanged :
    (reset reset_sim).spring_Y = 1000 ∧
    (reset reset_sim).ball_radius = 3 / 10 ∧
    (reset reset_sim).x = reset_sim.x ∧
    (reset reset_sim).v = reset_sim.v ∧
    default_substeps reset_sim.dt = 53 ∧
    (reset reset_sim).substeps = 50 ∧
    (reset reset_sim).substeps ≠ default_substeps reset_sim.dt := by
  refine ⟨rfl, rfl, rfl, rfl, ?_, rfl, ?_⟩
  · show default_substeps (1 / 3200) = 53
    norm_num [default_substeps]
  · show (50 : ℤ) ≠ default_substeps (1 / 3200)
    have : default_substeps (1 / 3200 : ℚ) = 53 := by norm_num [default_substeps]
    rw [this]
    norm_num

/-- C3 (code-bug evidence): when the positions of a connected pair
coincide (`x_ij = 0`), the source does NOT skip the pair: it computes
`d = x_ij.normalized()`, whose components are the f32 division `0 / 0`,
so every component of the spring contribution is non-finite (NaN), and
the velocity update `v[i] += force * dt` makes the velocity non-finite
as well — contradicting the claim that the contribution is zero and that
no NaN reaches the velocity.  The only assumption is `sqrt 0 = 0`, which
the f32 square root satisfies. -/
theorem degenerate_spring_gives_nan (sqrt : ℚ → ℚ) (Y dp qs dt : ℚ)
    (xi vi vj : Vec3) (off : ℤ × ℤ) (hsqrt : sqrt 0 = 0) :
    spring_contrib_f sqrt Y dp qs xi xi vi vj off = ⟨none, none, none⟩ ∧
    velocity_after_springs_f dt (fvec vi)
        (spring_contrib_f sqrt Y dp qs xi xi vi vj off) =
      ⟨none, none, none⟩ := by
  have hc : spring_contrib_f sqrt Y dp qs xi xi vi vj off = ⟨none, none, none⟩ := by
    simp only [spring_contrib_f, Vec3.sub_self, normSq_zero, hsqrt, Vec3.zero_vx,
      Vec3.zero_vy, Vec3.zero_vz, fdiv]
    simp [fvadd, fvsmul, fmul, fadd, fsub, fneg, fdot]
  refine ⟨hc, ?_⟩
  rw [hc]
  simp [velocity_after_springs_f, fvadd, fvsmul, fmul, fadd]

/-- Witness for C3: a concrete coincident pair with a square root that is 0
at 0, showing the contribution and the updated velocity are entirely
non-finite. -/
theorem degenerate_spring_gives_nan_witness :
    spring_contrib_f (fun q => if q = 0 then 0 else 1) 1000 10000 (1 / 128)
        ⟨1, 2, 3⟩ ⟨1, 2, 3⟩ ⟨4, 5, 6⟩ ⟨7, 8, 9⟩ (0, 1) = ⟨none, none, none⟩ ∧
    velocity_after_springs_f (1 / 3200) (fvec ⟨4, 5, 6⟩)
        (spring_contrib_f (fun q => if q = 0 then 0 else 1) 1000 10000 (1 / 128)
          ⟨1, 2, 3⟩ ⟨1, 2, 3⟩ ⟨4, 5, 6⟩ ⟨7, 8, 9⟩ (0, 1)) = ⟨none, none, none⟩ :=
  degenerate_spring_gives_nan (fun q => if q = 0 then 0 else 1) 1000 10000 (1 / 128)
    (1 / 3200) ⟨1, 2, 3⟩ ⟨4, 5, 6⟩ ⟨7, 8, 9⟩ (0, 1) (by norm_num)


/-- C7: for n >= 2 the index buffer has exactly `6*(n-1)^2` entries, each in
`[0, n*n)`, and for every quad (i, j) the six entries at flat positions
`(i*(n-1)+j)*6 .. +5` are triangle A = `(idx(i,j), idx(i+1,j), idx(i,j+1))`
followed by triangle B = `(idx(i+1,j+1), idx(i,j+1), idx(i+1,j))` under
`idx(i,j) = i*n+j`; in particular the two triangles share the diagonal
edge, since entries 2 and 4 coincide and entries 1 and 5 coincide. -/
theorem mesh_indices_spec (n : ℕ) (hn : 2 ≤ n) :
    (initialize_mesh_indices n).length = 6 * (n - 1) ^ 2 ∧
    (∀ k ∈ initialize_mesh_indices n, k < n * n) ∧
    (∀ i j : ℕ, i < n - 1 → j < n - 1 →
      indices_val n ((i * (n - 1) + j) * 6) = i * n + j ∧
      indices_val n ((i * (n - 1) + j) * 6 + 1) = (i + 1) * n + j ∧
      indices_val n ((i * (n - 1) + j) * 6 + 2) = i * n + (j + 1) ∧
      indices_val n ((i * (n - 1) + j) * 6 + 3) = (i + 1) * n + (j + 1) ∧
      indices_val n ((i * (n - 1) + j) * 6 + 4) = i * n + (j + 1) ∧
      indices_val n ((i * (n - 1) + j) * 6 + 5) = (i + 1) * n + j) := by
  have hpos : 0 < n - 1 := by omega
  refine ⟨?_, ?_, ?_⟩
  · simp only [initialize_mesh_indices, List.length_map, List.length_range]
    ring
  · intro k hk
    simp only [initialize_mesh_indices, List.mem_map, List.mem_range] at hk
    obtain ⟨p, hp, rfl⟩ := hk
    have hq : p / 6 < (n - 1) * (n - 1) :=
      (Nat.div_lt_iff_lt_mul (by norm_num)).mpr hp
    have hi : p / 6 / (n - 1) < n - 1 :=
      (Nat.div_lt_iff_lt_mul hpos).mpr hq
    have hj : p / 6 % (n - 1) < n - 1 := Nat.mod_lt _ hpos
    obtain ⟨m, rfl⟩ : ∃ m, n = m + 2 := ⟨n - 2, by omega⟩
    have hm1 : m + 2 - 1 = m + 1 := by omega
    rw [hm1] at hi hj
    have hi2 : p / 6 / (m + 1) ≤ m := by omega
    have hj2 : p / 6 % (m + 1) ≤ m := by omega
    simp only [indices_val, hm1]
    split_ifs <;> nlinarith [hi2, hj2]
  · intro i j hi hj
    have key : ∀ t : ℕ, t < 6 → indices_val n ((i * (n - 1) + j) * 6 + t) =
        (if t = 0 then i * n + j
         else if t = 1 then (i + 1) * n + j
         else if t = 2 then i * n + (j + 1)
         else if t = 3 then (i + 1) * n + j + 1
         else if t = 4 then i * n + (j + 1)
         else (i + 1) * n + j) := by
      intro t ht
      have h6 : ((i * (n - 1) + j) * 6 + t) / 6 = i * (n - 1) + j := by omega
      have h6m : ((i * (n - 1) + j) * 6 + t) % 6 = t := by omega
      have hdiv : (i * (n - 1) + j) / (n - 1) = i := by
        rw [Nat.add_comm, Nat.add_mul_div_right _ _ hpos, Nat.div_eq_of_lt hj]
        omega
      have hmod : (i * (n - 1) + j) % (n - 1) = j := by
        rw [Nat.add_comm, Nat.add_mul_mod_self_right]
        exact Nat.mod_eq_of_lt hj
      simp only [indices_val, h6, h6m, hdiv, hmod]
    have e0 := key 0 (by norm_num)
    have e1 := key 1 (by norm_num)
    have e2 := key 2 (by norm_num)
    have e3 := key 3 (by norm_num)
    have e4 := key 4 (by norm_num)
    have e5 := key 5 (by norm_num)
    norm_num at e0 e1 e2 e3 e4 e5
    exact ⟨e0, e1, e2, by rw [e3, Nat.add_assoc], e4, e5⟩

/-- Witness for C7 at n = 3, quad (1, 0). -/
theorem mesh_indices_spec_witness :
    (initialize_mesh_indices 3).length = 6 * (3 - 1) ^ 2 ∧
    indices_val 3 ((1 * (3 - 1) + 0) * 6 + 3) = (1 + 1) * 3 + (0 + 1) :=
  ⟨(mesh_indices_spec 3 (by norm_num)).1,
   ((mesh_indices_spec 3 (by norm_num)).2.2 1 0 (by norm_num) (by norm_num)).2.2.2.1⟩

/-- C1 (amended): for any state in which `spring_Y = 0`, gravity is the
zero vector, every point lies strictly outside the sphere, no two distinct
grid points coincide, AND all grid points have equal velocities, a single
`substep()` changes every point's velocity exactly by the drag decay
`velocity_new = velocity_old * exp(-drag_damping*dt)` and then advances its
position by `dt * velocity_new`.  (Without the equal-velocity condition the
claim is false: the dashpot damping force does not involve `spring_Y`; see
the counterexample below.  The no-coincident-points condition keeps the
statement inside the domain where this exact-rational embedding is
faithful: a coincident connected pair makes the f32 code produce NaN
through `x_ij.normalized()`, see `degenerate_spring_gives_nan`.) -/
theorem substep_drag_only_of_uniform_velocity (sqrt exp : ℚ → ℚ) (s : Sim)
    (hY : s.spring_Y = 0) (hg : s.gravity = 0)
    (hout : ∀ i j : ℤ, inGrid s.n i j →
      s.ball_radius * s.ball_radius < normSq (s.x i j - s.ball_center))
    (_hdist : ∀ i j k l : ℤ, inGrid s.n i j → inGrid s.n k l →
      ((i, j) : ℤ × ℤ) ≠ (k, l) → s.x i j ≠ s.x k l)
    (huni : ∀ i j k l : ℤ, inGrid s.n i j → inGrid s.n k l → s.v i j = s.v k l)
    (i j : ℤ) (hij : inGrid s.n i j) :
    (substep sqrt exp s).v i j = exp (-(s.drag_damping * s.dt)) • s.v i j ∧
    (substep sqrt exp s).x i j = s.x i j + s.dt • (substep sqrt exp s).v i j := by
  have hv1 : ∀ a b : ℤ,
      (if inGrid s.n a b then s.v a b + s.dt • s.gravity else s.v a b) = s.v a b := by
    intro a b
    split <;> simp [hg, Vec3.smul_zero, Vec3.add_zero]
  simp only [substep, hv1]
  have hforce : (s.offsets.foldl (fun force off =>
      force + (if inGrid s.n (i + off.1) (j + off.2) then
        spring_contrib sqrt s.spring_Y s.dashpot_damping s.quad_size
          (s.x i j) (s.x (i + off.1) (j + off.2))
          (s.v i j) (s.v (i + off.1) (j + off.2)) off
      else 0)) 0) = 0 := by
    apply foldl_add_eq_init
    intro o ho
    by_cases hin : inGrid s.n (i + o.1) (j + o.2)
    · rw [if_pos hin, huni i j (i + o.1) (j + o.2) hij hin, hY]
      exact spring_contrib_eq_zero sqrt s.dashpot_damping s.quad_size _ _ _ o
    · rw [if_neg hin]
  rw [hforce, Vec3.smul_zero, Vec3.add_zero,
    collision_project_of_outside _ _ _ _ (hout i j hij)]
  constructor <;> simp [hij]

/-- Witness for C1 (amended) on `drag_only_sim`, whose velocity field is
constant and whose four grid points sit at pairwise-distinct positions. -/
theorem substep_drag_only_witness :
    (substep cex_sqrt (fun _ => (2 : ℚ)) drag_only_sim).v 0 0 =
      (fun _ : ℚ => (2 : ℚ)) (-(drag_only_sim.drag_damping * drag_only_sim.dt)) •
        drag_only_sim.v 0 0 ∧
    (substep cex_sqrt (fun _ => (2 : ℚ)) drag_only_sim).x 0 0 =
      drag_only_sim.x 0 0 +
        drag_only_sim.dt • ((substep cex_sqrt (fun _ => (2 : ℚ)) drag_only_sim).v 0 0) :=
  substep_drag_only_of_uniform_velocity cex_sqrt (fun _ => (2 : ℚ)) drag_only_sim
    rfl rfl
    (by
      intro i j hij
      unfold inGrid at hij
      obtain ⟨h1, h2, h3, h4⟩ := hij
      simp only [drag_only_sim, cex_sim, sample_sim] at h2 h4
      norm_num at h2 h4
      interval_cases i <;> interval_cases j <;>
        norm_num [drag_only_sim, cex_sim, sample_sim, normSq, dot])
    (by
      intro i j k l hij hkl hne
      unfold inGrid at hij hkl
      obtain ⟨h1, h2, h3, h4⟩ := hij
      obtain ⟨h5, h6, h7, h8⟩ := hkl
      simp only [drag_only_sim, cex_sim, sample_sim] at h2 h4 h6 h8
      norm_num at h2 h4 h6 h8
      interval_cases i <;> interval_cases j <;> interval_cases k <;> interval_cases l <;>
        norm_num [drag_only_sim, cex_sim, sample_sim, Vec3.ext_iff, Prod.mk.injEq] at hne ⊢)
    (by intro i j k l _ _; rfl)
    0 0 (by decide)

/-- C1 counterexample: the claim as stated is false.  On `cex_sim`
(stiffness 0, zero gravity, ball far away, but cell (0,0) moving relative
to its resting neighbors) the velocity of cell (0,0) after one `substep()`
is not `exp(-drag_damping*dt) * velocity_old`: the dashpot damping term
`-dot(v_ij, d) * d * dashpot_damping * quad_size` is independent of
`spring_Y` and produces a large force. -/
theorem substep_drag_only_claim_false :
    ¬ (∀ (sqrt exp : ℚ → ℚ) (s : Sim),
        s.spring_Y = 0 → s.gravity = 0 →
        (∀ i j : ℤ, inGrid s.n i j →
          s.ball_radius * s.ball_radius < normSq (s.x i j - s.ball_center)) →
        ∀ i j : ℤ, inGrid s.n i j →
          (substep sqrt exp s).v i j = exp (-(s.drag_damping * s.dt)) • s.v i j ∧
          (substep sqrt exp s).x i j = s.x i j + s.dt • (substep sqrt exp s).v i j) := by
  intro h
  have hout : ∀ i j : ℤ, inGrid cex_sim.n i j →
      cex_sim.ball_radius * cex_sim.ball_radius <
        normSq (cex_sim.x i j - cex_sim.ball_center) := by
    intro i j hij
    unfold inGrid at hij
    obtain ⟨h1, h2, h3, h4⟩ := hij
    simp only [cex_sim, sample_sim] at h2 h4
    norm_num at h2 h4
    interval_cases i <;> interval_cases j <;>
      norm_num [cex_sim, sample_sim, normSq, dot]
  have hkey := (h cex_sqrt (fun _ => (1 : ℚ)) cex_sim rfl rfl hout 0 0 (by decide)).1
  have hne : ¬ ((substep cex_sqrt (fun _ => (1 : ℚ)) cex_sim).v 0 0 =
      (fun _ : ℚ => (1 : ℚ)) (-(cex_sim.drag_damping * cex_sim.dt)) • cex_sim.v 0 0) := by
    norm_num [substep, spring_contrib, collision_project, inGrid, qmin, normSq, dot,
      spring_offsets, rangeZ, cex_sim, sample_sim, cex_sqrt, List.foldl, Vec3.ext_iff]
  exact hne hkey

/-- Witness for C6 at a concrete offset. -/
theorem spring_offsets_topology_witness :
    ((0 : ℤ), (2 : ℤ)) ≠ ((0 : ℤ), (0 : ℤ)) ∧ (0 : ℤ).natAbs + (2 : ℤ).natAbs ≤ 2 :=
  spring_offsets_topology.2.2.1 ((0 : ℤ), (2 : ℤ)) (by decide)
